import Mathlib

/-!
Verification of the content-acquisition pipeline of `app.py`
(flask-research-ai): URL normalization, the Firecrawl batch-extract
adapter with per-row scrape fallback, the direct trafilatura fallback
adapter, the corpus builder of the OpenAI synthesis step, and the
`/research` route orchestration.

Python strings are modelled as `List Char`; Python dictionaries holding
string values as association lists; the remote services (Firecrawl
extract/scrape, direct page download, trafilatura extraction, OpenAI
completion) as oracle functions supplied as parameters.  Network calls
are recorded in an explicit call log so that claims of the form "this
call is (never) issued" are statable.
-/

deriving instance DecidableEq for Except

namespace FlaskResearch

/-- Python `str`, modelled as a list of characters. -/
abbrev Str := List Char

/-- Whitespace characters removed by Python's argumentless `str.strip()`
(the ASCII ones; the model does not cover exotic Unicode whitespace). -/
def pyIsSpace (c : Char) : Bool :=
  c = ' ' || c = '\t' || c = '\n' || c = '\r' || c = '\x0b' || c = '\x0c'

/-- Python `s.strip(chars)` / `s.strip()`: drop the maximal run of
characters satisfying `p` from both ends. -/
def pyStrip (p : Char → Bool) (s : Str) : Str :=
  ((s.dropWhile p).reverse.dropWhile p).reverse

/-- Python `s.strip()` with no arguments. -/
def pyStripWs (s : Str) : Str := pyStrip pyIsSpace s

/-- The six characters of the strip set in `normalize_url`:
left/right single smart quote, left/right double smart quote,
ASCII double quote (U+0022), ASCII apostrophe (U+0027). -/
def quoteChars : List Char :=
  ['‘', '’', '“', '”', Char.ofNat 34, Char.ofNat 39]

/-- Membership in the `normalize_url` strip set. -/
def isQuoteChar (c : Char) : Bool := quoteChars.contains c

/-- One character of the chained `.replace` calls in `normalize_url`:
en dash, em dash and minus sign become the ASCII hyphen. -/
def dashFix (c : Char) : Char :=
  if c = '–' || c = '—' || c = '−' then '-' else c

/-- The chained `.replace("–","-").replace("—","-").replace("−","-")`
of `normalize_url`; single-character replacements commute into one map. -/
def replaceDashes (s : Str) : Str := s.map dashFix

/-- Function `normalize_url` from `app.py`: strip whitespace, then strip the six
quote characters, then replace the three Unicode dashes. -/
def normalize_url (u : Str) : Str :=
  replaceDashes (pyStrip isQuoteChar (pyStrip pyIsSpace u))

/-- Function `parse_urls_csv` from `app.py`: `re.split(r"[,\s]+", s.strip())`,
keeping only non-empty parts.  Splitting at every separator character and
discarding empty pieces is the same as splitting at separator runs. -/
def parse_urls_csv (s : Str) : List Str :=
  ((pyStripWs s).splitOnP (fun c => c = ',' || pyIsSpace c)).filter
    (fun p => !p.isEmpty)

/-- Python truthiness of an `or`-chain over strings:
`a or b` is `b` when `a` is empty, else `a`. -/
def orS (a b : Str) : Str := if a = [] then b else a

/-- Modelled library behavior (`urllib.parse.urlparse`): drop a leading
`scheme:` prefix when the string starts with a letter followed by scheme
characters and a colon. -/
def stripScheme (s : Str) : Str :=
  match s with
  | [] => []
  | c :: _ =>
    if c.isAlpha then
      let pre := s.takeWhile (fun d => d.isAlphanum || d = '+' || d = '-' || d = '.')
      match s.drop pre.length with
      | ':' :: r => r
      | _ => s
    else s

/-- Modelled library behavior (`urlparse(u).netloc`): the component
between a leading `//` (after an optional scheme) and the next `/`, `?`
or `#`; empty when the remainder does not start with `//`. -/
def netlocOf (s : Str) : Str :=
  match stripScheme s with
  | '/' :: '/' :: r => r.takeWhile (fun c => !(c = '/' || c = '?' || c = '#'))
  | _ => []

/-- Function `origin` from `app.py`: `urlparse(url).netloc or url`. -/
def origin (u : Str) : Str := orS (netlocOf u) u

/-- The canonical page record `{url, title, text}` produced by every
acquisition adapter. -/
structure Page where
  url : Str
  title : Str
  text : Str
deriving DecidableEq, Repr

/-- The truncation rule shared by `_append_if_text` and
`direct_fetch_pages_with_trafilatura`:
`text[:limit] + ("…" if len(text) > limit else "")`. -/
def truncate (limit : Nat) (t : Str) : Str :=
  t.take limit ++ (if limit < t.length then ['…'] else [])

/-- A Python dict with string values, as an association list
(`row.get(k)` returning a missing or `None` value and returning `""`
are indistinguishable through the `or`-chains the code uses). -/
abbrev Row := List (Str × Str)

/-- Lookup `row.get(k) or ""`: the value under `k`, or the empty string. -/
def rget (row : Row) (k : Str) : Str := (row.lookup k).getD []

def keyUrl : Str := ['u', 'r', 'l']
def keySourceUrl : Str := ['s', 'o', 'u', 'r', 'c', 'e', 'U', 'r', 'l']
def keyLink : Str := ['l', 'i', 'n', 'k']
def keyPageUrl : Str := ['p', 'a', 'g', 'e', 'U', 'r', 'l']
def keyTitle : Str := ['t', 'i', 't', 'l', 'e']
def keyMarkdown : Str := ['m', 'a', 'r', 'k', 'd', 'o', 'w', 'n']
def keyContent : Str := ['c', 'o', 'n', 't', 'e', 'n', 't']
def keyText : Str := ['t', 'e', 'x', 't']
def keyHtml : Str := ['h', 't', 'm', 'l']

/-- One item of a list in the extract response: a dict, or a
non-dict value whose `str()` rendering is carried. -/
inductive EItem where
  | obj (r : Row)
  | prim (s : Str)
deriving DecidableEq

/-- The result of `app_fc.extract(urls=urls)`: a bare list, a dict
whose `data` / `results` / `result` keys may hold lists (a field is
`none` when the key is absent or its value is not a list), or anything
else — including the `None` the code substitutes when `extract` raises
(both make `rows = []` and are observationally identical here). -/
inductive EResp where
  | list (items : List EItem)
  | dict (dataF resultsF resultF : Option (List EItem))
  | other
deriving DecidableEq

/-- A non-dict item inside `data`/`results`/`result` becomes `{}`. -/
def dictItemRow : EItem → Row
  | .obj r => r
  | .prim _ => []

/-- Row normalization of `firecrawl_fetch_pages_with_extract`
(lines 67–76 of `app.py`): bare-list items that are not dicts become
`{"url": str(item)}`; dict responses try `data`, `results`, `result`
in that order; anything else yields no rows. -/
def rowsOf : EResp → List Row
  | .list items =>
    items.map fun it =>
      match it with
      | .obj r => r
      | .prim s => [(keyUrl, s)]
  | .dict dataF resultsF resultF =>
    match dataF with
    | some l => l.map dictItemRow
    | none =>
      match resultsF with
      | some l => l.map dictItemRow
      | none =>
        match resultF with
        | some l => l.map dictItemRow
        | none => []
  | .other => []

/-- The result of `app_fc.scrape(url)` when the call returns: either not
a dict (the code then works with `{}`), or a dict of top-level string
fields together with the dict under its `data` key when that value is a
dict (`none` when `data` is absent or not a dict). -/
inductive SResp where
  | notDict
  | dict (top : Row) (dataD : Option Row)
deriving DecidableEq

/-- Normalization `data = d.get("data") if isinstance(d.get("data"), dict) else d`,
after `d = s if isinstance(s, dict) else {}`. -/
def scrapeRow : SResp → Row
  | .notDict => []
  | .dict top dataD => dataD.getD top

/-- Resolution of body text from an extract row (markdown, content,
text, html — in that order). -/
def rowText (row : Row) : Str :=
  orS (rget row keyMarkdown)
    (orS (rget row keyContent) (orS (rget row keyText) (rget row keyHtml)))

/-- Resolution of the url from an extract row
(url, sourceUrl, link, pageUrl — in that order), stripped. -/
def rowUrl (row : Row) : Str :=
  pyStripWs (orS (rget row keyUrl)
    (orS (rget row keySourceUrl) (orS (rget row keyLink) (rget row keyPageUrl))))

/-- Resolution of body text from the scrape response's effective dict
(content, markdown, text, html — in that order). -/
def scrapeText (data : Row) : Str :=
  orS (rget data keyContent)
    (orS (rget data keyMarkdown) (orS (rget data keyText) (rget data keyHtml)))

/-- The process environment: the two API keys (`none` = variable
absent; Python treats `None` and `""` alike via `if not key`). -/
structure Env where
  fcKey : Option Str
  openaiKey : Option Str

/-- Python truthiness of `os.getenv(...)`. -/
def truthy : Option Str → Bool
  | none => false
  | some s => !s.isEmpty

/-- One network call of the pipeline, for the instrumented call log. -/
inductive NetCall where
  | extractCall (urls : List Str)
  | scrapeCall (url : Str)
  | fetchCall (url : Str)
  | completionCall
deriving DecidableEq, Repr

def fcMissingMsg : Str := "FIRECRAWL_API_KEY missing in .env".data
def openaiMissingMsg : Str := "OPENAI_API_KEY missing in .env".data

/-- Helper `_append_if_text` from `app.py` (a closure over `items` and
`per_page_char_limit`, modelled as returning the appended record):
strip the text; only when both url and stripped text are non-empty,
emit `{url, title-or-origin, truncated text}`. -/
def append_if_text (limit : Nat) (url title text : Str) : Option Page :=
  let t := pyStripWs text
  if url ≠ [] ∧ t ≠ [] then
    some ⟨url, orS (pyStripWs title) (origin url), truncate limit t⟩
  else none

/-- The per-row body of the loop in `firecrawl_fetch_pages_with_extract`:
try `_append_if_text` on the extract row; on failure and a present url,
issue the per-URL scrape (an `Except.error` oracle answer models a
raised exception, which the code catches and skips) and try again on
the scrape response's effective dict. -/
def processRow (limit : Nat) (scrape : Str → Except Str SResp) (row : Row) :
    Option Page × List NetCall :=
  let url := rowUrl row
  let title := pyStripWs (rget row keyTitle)
  let text := rowText row
  match append_if_text limit url title text with
  | some p => (some p, [])
  | none =>
    if url ≠ [] then
      match scrape url with
      | .error _ => (none, [.scrapeCall url])
      | .ok s =>
        let data := scrapeRow s
        let title2 := pyStripWs (orS (rget data keyTitle) title)
        (append_if_text limit url title2 (scrapeText data), [.scrapeCall url])
    else (none, [])

/-- Function `firecrawl_fetch_pages_with_extract` from `app.py`.  `topic` is
accepted and unused, as in the source.  The second component is the log
of network calls issued; a missing key raises before any call. -/
def firecrawl_fetch_pages_with_extract (env : Env) (topic : Str)
    (urls : List Str) (limit : Nat)
    (extract : List Str → EResp) (scrape : Str → Except Str SResp) :
    Except Str (List Page) × List NetCall :=
  if truthy env.fcKey = false then (.error fcMissingMsg, [])
  else if urls = [] then (.ok [], [])
  else
    let rows := rowsOf (extract urls)
    (.ok (rows.filterMap fun r => (processRow limit scrape r).1),
      .extractCall urls :: rows.flatMap fun r => (processRow limit scrape r).2)

/-- The per-URL body of `direct_fetch_pages_with_trafilatura`:
`fetch_url` (empty string = `None`/empty download), `trafilatura.extract`
(empty = no text), title from `extract_metadata` (the dict and
attribute shapes both reduce to an optional raw title, stripped),
fallback to `origin`, shared truncation.  The input url is stored
verbatim. -/
def direct_one (limit : Nat) (fetch : Str → Str) (extractT : Str → Str → Str)
    (meta : Str → Option Str) (url : Str) : Option Page :=
  let downloaded := fetch url
  if downloaded = [] then none
  else
    let text := extractT downloaded url
    if text = [] then none
    else
      let title :=
        match meta downloaded with
        | some t => pyStripWs t
        | none => []
      some ⟨url, orS title (origin url), truncate limit text⟩

/-- Function `direct_fetch_pages_with_trafilatura` from `app.py`: per-URL
direct download + trafilatura extraction, in input order, per-URL
failures skipped; `fetch_url` is attempted for every url. -/
def direct_fetch_pages_with_trafilatura (urls : List Str) (limit : Nat)
    (fetch : Str → Str) (extractT : Str → Str → Str)
    (meta : Str → Option Str) : List Page × List NetCall :=
  (urls.filterMap (direct_one limit fetch extractT meta),
    urls.map NetCall.fetchCall)

/-- Python `enumerate(items, start)`. -/
def enumerate1 : Nat → List Page → List (Nat × Page)
  | _, [] => []
  | i, p :: ps => (i, p) :: enumerate1 (i + 1) ps

/-- Decimal rendering of the citation number, as the f-string does. -/
def natStr (n : Nat) : Str := (Nat.repr n).data

/-- One corpus block `f"[{i}] {title} — {url}\n{text}\n"`. -/
def citeLine (i : Nat) (title url text : Str) : Str :=
  '[' :: (natStr i ++ ']' :: ' ' :: (title ++ ' ' :: '—' :: ' ' ::
    (url ++ '\n' :: (text ++ ['\n']))))

/-- The corpus-building loop of `enhance_with_openai` (lines 143–148):
enumerate the incoming items from 1; keep a block only when both url
and text are non-empty; the block's number is the enumeration index. -/
def corpus_lines (items : List Page) : List Str :=
  (enumerate1 1 items).filterMap fun it =>
    if it.2.url ≠ [] ∧ it.2.text ≠ [] then
      some (citeLine it.1 (orS it.2.title (origin it.2.url)) it.2.url it.2.text)
    else none

def noPagesMsg : Str := "No pages scraped.".data

/-- The fixed instruction template of `enhance_with_openai`, with the
topic and corpus spliced in at their placeholders. -/
def promptOf (topic corpus : Str) : Str :=
  "\nYou are an expert research writer.\n\nTOPIC:\n".data ++ topic ++
  "\n\nCORPUS (numbered sources follow the format \"[n] title — url\"):\n".data ++
  corpus ++
  "\n\nTASK:\n1) Produce a clear, well-structured research report on the topic.\n2) Include: overview, key findings, important concepts, examples/case studies, current trends, risks/limitations, and a short future outlook.\n3) Use inline citations like [1], [2] that refer to the numbered sources above.\n4) End with a \"References\" section listing the source number, title (or domain), and URL.\n\nKeep it factual, concise, and readable. If any claims are speculative, mark them as such.\n".data

/-- Function `enhance_with_openai` from `app.py`: a missing OpenAI key raises
before the completion call; otherwise build the corpus (placeholder
when empty), compose the prompt, and return the completion oracle's
answer (the fixed model id `gpt-4.1-mini` is ambient in the oracle). -/
def enhance_with_openai (env : Env) (topic : Str) (items : List Page)
    (completion : Str → Str) : Except Str Str × List NetCall :=
  if truthy env.openaiKey = false then (.error openaiMissingMsg, [])
  else
    let lines := corpus_lines items
    let corpus := if lines = [] then noPagesMsg else List.intercalate ['\n'] lines
    (.ok (completion (promptOf topic corpus)), [.completionCall])

/-- The form fields of the `/research` POST (after `int(...)` parsing
of the two numeric fields). -/
structure FormData where
  topic : Str
  urls : Str
  max_urls : Nat
  per_page_limit : Nat

/-- The remote collaborators, as oracles: Firecrawl batch extract,
Firecrawl single-page scrape (`Except.error` = raised exception),
`trafilatura.fetch_url` (empty = failed/empty download),
`trafilatura.extract` (content → url → text, empty = no text),
`trafilatura.extract_metadata` (optional raw title), and the OpenAI
completion (prompt → response text). -/
structure Oracles where
  extract : List Str → EResp
  scrape : Str → Except Str SResp
  fetchUrl : Str → Str
  extractContent : Str → Str → Str
  extractMeta : Str → Option Str
  completion : Str → Str

/-- The fixed default URL list of the `/research` route. -/
def default_urls : List Str :=
  ["https://openai.com/blog".data,
   "https://huggingface.co/blog".data,
   "https://ai.googleblog.com/".data,
   "https://www.deeplearning.ai/the-batch/".data,
   "https://arxiv.org/list/cs.AI/recent".data,
   "https://www.anthropic.com/news".data]

/-- The effective URL list of the route: parsed + normalized user URLs
truncated to `max_urls`, or the default list truncated likewise. -/
def effective_urls (f : FormData) : List Str :=
  let urls_override := (parse_urls_csv (pyStripWs f.urls)).map normalize_url
  if urls_override ≠ [] then urls_override.take f.max_urls
  else default_urls.take f.max_urls

/-- The acquisition section of the `/research` route (lines 258–263):
Firecrawl first; when it yields no items, the direct trafilatura
adapter over the same full URL list. -/
def acquirePages (env : Env) (O : Oracles) (topic : Str) (urls : List Str)
    (limit : Nat) : Except Str (List Page) × List NetCall :=
  match firecrawl_fetch_pages_with_extract env topic urls limit O.extract O.scrape with
  | (.error m, c) => (.error m, c)
  | (.ok items, c) =>
    if items = [] then
      let d := direct_fetch_pages_with_trafilatura urls limit O.fetchUrl
        O.extractContent O.extractMeta
      (.ok d.1, c ++ d.2)
    else (.ok items, c)

/-- The observable outcome of the `/research` route: a flash message
with a redirect back to the input form, an uncaught exception, or the
rendered report page (its markdown source). -/
inductive Outcome where
  | flashRedirect (msg : Str)
  | fatal (msg : Str)
  | page (report_md : Str)
deriving DecidableEq

def topicMsg : Str := "Please enter a topic.".data
def noContentMsg : Str := "Could not scrape any content. Try different article URLs.".data
def reportHeader : Str := "## Enhanced Research Report\n\n".data

/-- The `/research` route of `app.py`: topic check, URL normalization
with defaults, two-tier acquisition, total-failure flash, synthesis,
report assembly.  The call log accumulates every network call made. -/
def research (env : Env) (f : FormData) (O : Oracles) : Outcome × List NetCall :=
  let topic := pyStripWs f.topic
  if topic = [] then (.flashRedirect topicMsg, [])
  else
    let urls := effective_urls f
    match acquirePages env O topic urls f.per_page_limit with
    | (.error m, c) => (.fatal m, c)
    | (.ok items, c) =>
      if items = [] then (.flashRedirect noContentMsg, c)
      else
        match enhance_with_openai env topic items O.completion with
        | (.error m, c2) => (.fatal m, c ++ c2)
        | (.ok text, c2) => (.page (reportHeader ++ text), c ++ c2)

/-! ## Concrete service behaviors used in counterexamples and witnesses -/

/-- An environment with both API keys set. -/
def sEnv : Env := ⟨some ['k'], some ['k']⟩

/-- A direct-fetch transport that succeeds exactly on the empty URL. -/
def c1Fetch : Str → Str := fun u => if u = [] then ['x'] else []

/-- A trafilatura extraction that always finds the text `hi`. -/
def c1Extract : Str → Str → Str := fun _ _ => ['h', 'i']

/-- A trafilatura metadata extraction that never finds a title. -/
def c1Meta : Str → Option Str := fun _ => none

/-- A scrape response dict carrying both a plain `content` field and a
rich `markdown` field, with different values. -/
def c6Data : Row := [(keyContent, "plain".data), (keyMarkdown, "rich".data)]

/-- An extract response whose single row has a url but no text, forcing
the per-row scrape fallback. -/
def c6Extract : List Str → EResp :=
  fun _ => .dict (some [.obj [(keyUrl, ['u'])]]) none none

/-- A scrape service that always answers with `c6Data`. -/
def c6Scrape : Str → Except Str SResp := fun _ => .ok (.dict c6Data none)

/-- An extract response listing full rows for the batch's URLs in the
reverse of the request order. -/
def c7Extract : List Str → EResp :=
  fun _ => .list [.obj [(keyUrl, ['b']), (keyMarkdown, ['t'])],
                  .obj [(keyUrl, ['a']), (keyMarkdown, ['t'])]]

/-- A scrape service whose calls always raise. -/
def c7Scrape : Str → Except Str SResp := fun _ => .error []

/-- Oracles where the remote service is useless but the direct tier
extracts text `t` from every page. -/
def c3O : Oracles :=
  ⟨fun _ => .other, fun _ => .error [], fun _ => ['x'], fun _ _ => ['t'],
   fun _ => none, fun _ => []⟩

/-- Oracles where every tier fails: empty extract response, raising
scrape, failing direct download. -/
def c4O : Oracles :=
  ⟨fun _ => .other, fun _ => .error [], fun _ => [], fun _ _ => [],
   fun _ => none, fun _ => []⟩

/-- A form with a topic and one user URL. -/
def c4Form : FormData := ⟨['t'], ['u'], 8, 10⟩

/-! ## Helper lemmas -/

theorem truncate_of_le {B : Nat} {t : Str} (h : t.length ≤ B) : truncate B t = t := by
  simp [truncate, Nat.not_lt.mpr h, List.take_of_length_le h]

theorem truncate_of_lt {B : Nat} {t : Str} (h : B < t.length) :
    truncate B t = t.take B ++ ['…'] := by
  simp [truncate, h]

theorem truncate_length (B : Nat) (t : Str) :
    (truncate B t).length = min t.length B + (if B < t.length then 1 else 0) := by
  by_cases h : B < t.length
  · simp [truncate, h, List.length_take, Nat.min_comm]
  · have h' : t.length ≤ B := Nat.not_lt.mp h
    simp [truncate, h, List.take_of_length_le h', Nat.min_eq_left h']

theorem truncate_ne_nil {B : Nat} {t : Str} (h : t ≠ []) : truncate B t ≠ [] := by
  by_cases hb : B < t.length
  · rw [truncate_of_lt hb]
    simp
  · rw [truncate_of_le (Nat.not_lt.mp hb)]
    exact h

theorem append_if_text_some {limit : Nat} {url title text : Str} {p : Page}
    (h : append_if_text limit url title text = some p) :
    url ≠ [] ∧ pyStripWs text ≠ [] ∧
      p = ⟨url, orS (pyStripWs title) (origin url), truncate limit (pyStripWs text)⟩ := by
  rw [append_if_text] at h
  split at h
  next hc =>
    cases h
    exact ⟨hc.1, hc.2, rfl⟩
  next => exact absurd h (by simp)

theorem processRow_some {limit : Nat} {S : Str → Except Str SResp} {row : Row} {p : Page}
    (h : (processRow limit S row).1 = some p) : p.url ≠ [] ∧ p.text ≠ [] := by
  have hmain : ∀ (u ti te : Str), append_if_text limit u ti te = some p →
      p.url ≠ [] ∧ p.text ≠ [] := by
    intro u ti te ha
    obtain ⟨hu, ht, hp⟩ := append_if_text_some ha
    subst hp
    exact ⟨hu, truncate_ne_nil ht⟩
  rw [processRow] at h
  split at h
  next ha => exact hmain _ _ _ (by simpa using congrArg some (by simpa using h) ▸ ha)
  next =>
    split at h
    · split at h
      · simp at h
      · exact hmain _ _ _ (by simpa using h)
    · simp at h

theorem processRow_calls {limit : Nat} {S : Str → Except Str SResp} {row : Row}
    {c : NetCall} (h : c ∈ (processRow limit S row).2) :
    ∃ u, c = NetCall.scrapeCall u := by
  rw [processRow] at h
  split at h
  next => simp at h
  next =>
    split at h
    · split at h
      · simp at h
        exact ⟨_, h⟩
      · simp at h
        exact ⟨_, h⟩
    · simp at h

theorem firecrawl_ok_mem {env : Env} {topic : Str} {urls : List Str} {limit : Nat}
    {E : List Str → EResp} {S : Str → Except Str SResp} {items : List Page} {p : Page}
    (hok : (firecrawl_fetch_pages_with_extract env topic urls limit E S).1 = .ok items)
    (hp : p ∈ items) : p.url ≠ [] ∧ p.text ≠ [] := by
  rw [firecrawl_fetch_pages_with_extract] at hok
  split at hok
  · simp at hok
  · split at hok
    · simp at hok
      subst hok
      simp at hp
    · simp at hok
      subst hok
      obtain ⟨r, _, hsome⟩ := List.mem_filterMap.mp hp
      exact processRow_some hsome

theorem firecrawl_calls {env : Env} {topic : Str} {urls : List Str} {limit : Nat}
    {E : List Str → EResp} {S : Str → Except Str SResp} {c : NetCall}
    (h : c ∈ (firecrawl_fetch_pages_with_extract env topic urls limit E S).2) :
    (∃ us, c = NetCall.extractCall us) ∨ ∃ u, c = NetCall.scrapeCall u := by
  rw [firecrawl_fetch_pages_with_extract] at h
  split at h
  · simp at h
  · split at h
    · simp at h
    · simp only at h
      rcases List.mem_cons.mp h with h1 | h2
      · exact .inl ⟨urls, h1⟩
      · obtain ⟨r, _, hc⟩ := List.mem_flatMap.mp h2
        exact .inr (processRow_calls hc)

theorem direct_one_some {limit : Nat} {fetch : Str → Str} {extractT : Str → Str → Str}
    {meta : Str → Option Str} {url : Str} {p : Page}
    (h : direct_one limit fetch extractT meta url = some p) :
    p.url = url ∧ p.text = truncate limit (extractT (fetch url) url) ∧
      extractT (fetch url) url ≠ [] := by
  unfold direct_one at h
  by_cases hdl : fetch url = []
  · simp [hdl] at h
  · simp only [if_neg hdl] at h
    by_cases hte : extractT (fetch url) url = []
    · simp [hte] at h
    · simp only [if_neg hte, Option.some.injEq] at h
      subst h
      exact ⟨rfl, rfl, hte⟩

theorem direct_mem {urls : List Str} {limit : Nat} {fetch : Str → Str}
    {extractT : Str → Str → Str} {meta : Str → Option Str} {p : Page}
    (h : p ∈ (direct_fetch_pages_with_trafilatura urls limit fetch extractT meta).1) :
    ∃ u ∈ urls, direct_one limit fetch extractT meta u = some p := by
  rw [direct_fetch_pages_with_trafilatura] at h
  exact List.mem_filterMap.mp h

theorem dropWhile_head?_not {α : Type} (p : α → Bool) :
    ∀ (l : List α) {c : α}, (l.dropWhile p).head? = some c → p c = false := by
  intro l
  induction l with
  | nil => intro c h; simp at h
  | cons a as ih =>
    intro c h
    rw [List.dropWhile_cons] at h
    by_cases ha : p a
    · rw [if_pos ha] at h
      exact ih h
    · rw [if_neg ha] at h
      simp at h
      subst h
      exact Bool.eq_false_iff.mpr ha

theorem getLast?_dropWhile {α : Type} (p : α → Bool) (l : List α)
    (h : l.dropWhile p ≠ []) : (l.dropWhile p).getLast? = l.getLast? := by
  conv_rhs => rw [← List.takeWhile_append_dropWhile p l]
  rw [List.getLast?_append_of_ne_nil _ h]

theorem pyStrip_head?_not {p : Char → Bool} {t : Str} {c : Char}
    (h : (pyStrip p t).head? = some c) : p c = false := by
  rw [pyStrip, List.head?_reverse] at h
  have hne : ((t.dropWhile p).reverse.dropWhile p) ≠ [] := by
    intro h0
    rw [h0] at h
    simp at h
  rw [getLast?_dropWhile _ _ hne, List.getLast?_reverse] at h
  exact dropWhile_head?_not p t h

theorem pyStrip_getLast?_not {p : Char → Bool} {t : Str} {c : Char}
    (h : (pyStrip p t).getLast? = some c) : p c = false := by
  rw [pyStrip, List.getLast?_reverse] at h
  exact dropWhile_head?_not p _ h

theorem pyStrip_eq_self {p : Char → Bool} {t : Str}
    (hh : ∀ c, t.head? = some c → p c = false)
    (hl : ∀ c, t.getLast? = some c → p c = false) : pyStrip p t = t := by
  have h1 : t.dropWhile p = t := by
    cases t with
    | nil => rfl
    | cons a as =>
      rw [List.dropWhile_cons, if_neg]
      rw [hh a rfl]
      simp
  rw [pyStrip, h1]
  have h2 : t.reverse.dropWhile p = t.reverse := by
    cases ht : t.reverse with
    | nil => rfl
    | cons a as =>
      rw [List.dropWhile_cons, if_neg]
      have : t.getLast? = some a := by
        rw [← List.head?_reverse, ht]
        rfl
      rw [hl a this]
      simp
  rw [h2, List.reverse_reverse]

theorem pyStrip_decomp (p : Char → Bool) (t : Str) :
    ∃ a b, t = a ++ pyStrip p t ++ b ∧
      (∀ c ∈ a, p c = true) ∧ (∀ c ∈ b, p c = true) := by
  refine ⟨t.takeWhile p, ((t.dropWhile p).reverse.takeWhile p).reverse, ?_, ?_, ?_⟩
  · rw [List.append_assoc]
    conv_lhs => rw [← List.takeWhile_append_dropWhile p t]
    congr 1
    conv_lhs => rw [← List.reverse_reverse (t.dropWhile p),
      ← List.takeWhile_append_dropWhile p (t.dropWhile p).reverse,
      List.reverse_append]
    rfl
  · intro c hc
    exact List.mem_takeWhile_imp hc
  · intro c hc
    rw [List.mem_reverse] at hc
    exact List.mem_takeWhile_imp hc

theorem dashFix_idem (c : Char) : dashFix (dashFix c) = dashFix c := by
  by_cases h : (c = '–' || c = '—' || c = '−') = true
  · have hc : dashFix c = '-' := by rw [dashFix, if_pos h]
    rw [hc]
    decide
  · have hc : dashFix c = c := by rw [dashFix, if_neg h]
    rw [hc]
    exact hc

theorem dashFix_not_quote {c : Char} (h : isQuoteChar c = false) :
    isQuoteChar (dashFix c) = false := by
  rw [dashFix]
  by_cases hd : (c = '–' || c = '—' || c = '−') = true
  · rw [if_pos hd]
    decide
  · rw [if_neg hd]
    exact h

theorem replaceDashes_idem (s : Str) : replaceDashes (replaceDashes s) = replaceDashes s := by
  rw [replaceDashes, replaceDashes, List.map_map]
  exact List.map_congr_left fun c _ => dashFix_idem c

theorem enumerate1_mem_get (items : List Page) :
    ∀ (start i : Nat) (h : i < items.length),
      (start + i, items.get ⟨i, h⟩) ∈ enumerate1 start items := by
  induction items with
  | nil => intro start i h; simp at h
  | cons p ps ih =>
    intro start i h
    cases i with
    | zero => simp [enumerate1]
    | succ j =>
      have hj : j < ps.length := Nat.lt_of_succ_lt_succ h
      have := ih (start + 1) j hj
      rw [enumerate1]
      refine List.mem_cons_of_mem _ ?_
      have harith : start + 1 + j = start + (j + 1) := by omega
      rw [← harith]
      exact this

theorem direct_map_url_sublist (urls : List Str) (limit : Nat) (fetch : Str → Str)
    (extractT : Str → Str → Str) (meta : Str → Option Str) :
    ((direct_fetch_pages_with_trafilatura urls limit fetch extractT meta).1.map
      Page.url).Sublist urls := by
  induction urls with
  | nil => simp [direct_fetch_pages_with_trafilatura]
  | cons u rest ih =>
    rw [direct_fetch_pages_with_trafilatura] at ih ⊢
    simp only [List.filterMap_cons]
    cases hd : direct_one limit fetch extractT meta u with
    | none => exact ih.cons u
    | some p =>
      simp only [List.map_cons, (direct_one_some hd).1]
      exact ih.cons₂ u

theorem enum_filterMap_all (items : List Page) :
    ∀ start : Nat, (∀ p ∈ items, p.url ≠ [] ∧ p.text ≠ []) →
      ((enumerate1 start items).filterMap fun it =>
        if it.2.url ≠ [] ∧ it.2.text ≠ [] then
          some (citeLine it.1 (orS it.2.title (origin it.2.url)) it.2.url it.2.text)
        else none) =
      (enumerate1 start items).map fun it =>
        citeLine it.1 (orS it.2.title (origin it.2.url)) it.2.url it.2.text := by
  induction items with
  | nil => intro start _; rfl
  | cons p ps ih =>
    intro start hall
    have hp := hall p (List.mem_cons_self p ps)
    rw [enumerate1, List.filterMap_cons, List.map_cons]
    rw [ih (start + 1) fun q hq => hall q (List.mem_cons_of_mem _ hq)]
    rw [if_pos hp]

theorem acquire_of_ok {env : Env} {O : Oracles} {topic : Str} {urls : List Str}
    {limit : Nat} {items0 : List Page}
    (hok : (firecrawl_fetch_pages_with_extract env topic urls limit O.extract O.scrape).1 =
      .ok items0) :
    acquirePages env O topic urls limit =
      if items0 = [] then
        (.ok (direct_fetch_pages_with_trafilatura urls limit O.fetchUrl O.extractContent
          O.extractMeta).1,
         (firecrawl_fetch_pages_with_extract env topic urls limit O.extract O.scrape).2 ++
           urls.map NetCall.fetchCall)
      else
        (.ok items0,
         (firecrawl_fetch_pages_with_extract env topic urls limit O.extract O.scrape).2) := by
  rcases hsplit : firecrawl_fetch_pages_with_extract env topic urls limit O.extract O.scrape
    with ⟨r, c⟩
  have hr : r = .ok items0 := by rw [hsplit] at hok; exact hok
  subst hr
  unfold acquirePages
  rw [hsplit]
  dsimp only
  rfl

/-! ## Claim theorems -/

/-- C1, counterexample: the claim asserts every record emitted by any
acquisition adapter has a non-empty `url` field.  The direct
fetch-and-extract adapter stores the input url verbatim without a
non-emptiness check: on input url `""`, with a transport that returns
content for it and an extractor that finds text, the returned list
contains a record whose url is empty. -/
theorem C1_counterexample :
    ((direct_fetch_pages_with_trafilatura [([] : Str)] 10 c1Fetch c1Extract c1Meta).1.map
      Page.url) = [[]] := by decide

/-- C1, amended: every record emitted by the batch-extraction-plus-scrape
adapter has a non-empty url and non-empty text; every record emitted by
the direct fetch-and-extract adapter has non-empty text and carries one
of the input URLs verbatim (so its url is non-empty whenever the input
URLs are).  In particular no adapter ever returns a record with empty or
missing text. -/
theorem C1_amended :
    (∀ (env : Env) (topic : Str) (urls : List Str) (limit : Nat)
      (E : List Str → EResp) (S : Str → Except Str SResp) (items : List Page) (p : Page),
      (firecrawl_fetch_pages_with_extract env topic urls limit E S).1 = .ok items →
      p ∈ items → p.url ≠ [] ∧ p.text ≠ []) ∧
    (∀ (urls : List Str) (limit : Nat) (fetch : Str → Str)
      (extractT : Str → Str → Str) (meta : Str → Option Str) (q : Page),
      q ∈ (direct_fetch_pages_with_trafilatura urls limit fetch extractT meta).1 →
      q.text ≠ [] ∧ q.url ∈ urls) := by
  constructor
  · intro env topic urls limit E S items p hok hp
    exact firecrawl_ok_mem hok hp
  · intro urls limit fetch extractT meta q hq
    obtain ⟨u, hu, hone⟩ := direct_mem hq
    obtain ⟨hurl, htext, hne⟩ := direct_one_some hone
    refine ⟨?_, ?_⟩
    · rw [htext]
      exact truncate_ne_nil hne
    · rw [hurl]
      exact hu

/-- C1, witness: the amended theorem applied to a concrete run of the
batch adapter that produces one page. -/
theorem C1_witness :
    (⟨['u'], ['u'], "plain".data⟩ : Page).url ≠ [] ∧
      (⟨['u'], ['u'], "plain".data⟩ : Page).text ≠ [] :=
  C1_amended.1 sEnv [] [['u']] 100 c6Extract c6Scrape
    [⟨['u'], ['u'], "plain".data⟩] ⟨['u'], ['u'], "plain".data⟩ (by decide) (by decide)

/-- C2: the truncation rule applied to a text of length `L` with budget
`B` yields exactly `min L B` characters plus exactly one marker
character when `L > B` and the text unchanged when `L ≤ B`; the batch
adapter's `_append_if_text` stores exactly `truncate` of the (stripped)
resolved text, and every record of the direct adapter stores exactly
`truncate` of the extracted text for its url — the same rule in every
adapter that produces text. -/
theorem C2_truncation :
    (∀ (t : Str) (B : Nat),
      (truncate B t).length = min t.length B + (if B < t.length then 1 else 0) ∧
      (B < t.length → truncate B t = t.take B ++ ['…']) ∧
      (t.length ≤ B → truncate B t = t)) ∧
    (∀ (limit : Nat) (url title text : Str) (p : Page),
      append_if_text limit url title text = some p →
      p.text = truncate limit (pyStripWs text)) ∧
    (∀ (urls : List Str) (limit : Nat) (fetch : Str → Str)
      (extractT : Str → Str → Str) (meta : Str → Option Str) (q : Page),
      q ∈ (direct_fetch_pages_with_trafilatura urls limit fetch extractT meta).1 →
      q.text = truncate limit (extractT (fetch q.url) q.url)) := by
  refine ⟨fun t B => ⟨truncate_length B t, fun h => truncate_of_lt h,
    fun h => truncate_of_le h⟩, ?_, ?_⟩
  · intro limit url title text p h
    obtain ⟨-, -, hp⟩ := append_if_text_some h
    rw [hp]
  · intro urls limit fetch extractT meta q hq
    obtain ⟨u, _, hone⟩ := direct_mem hq
    obtain ⟨hurl, htext, -⟩ := direct_one_some hone
    rw [hurl]
    exact htext

/-- C2, witness: the truncation rule evaluated on a length-5 text with
budget 3. -/
theorem C2_witness : truncate 3 "abcde".data = "abcde".data.take 3 ++ ['…'] :=
  (C2_truncation.1 "abcde".data 3).2.1 (by decide)

/-- C3: whenever the batch tier returns (rather than raises), the
pipeline invokes the direct tier — one `fetch_url` call per URL of the
original set, in order — exactly when the batch tier yielded zero pages;
when the batch tier yielded at least one page, the result is exactly
the batch tier's list and no direct-tier fetch call is ever issued. -/
theorem C3_tier_fallback (env : Env) (O : Oracles) (topic : Str) (urls : List Str)
    (limit : Nat) (items0 : List Page)
    (hok : (firecrawl_fetch_pages_with_extract env topic urls limit O.extract O.scrape).1 =
      .ok items0) :
    (items0 = [] →
      acquirePages env O topic urls limit =
        (.ok (direct_fetch_pages_with_trafilatura urls limit O.fetchUrl O.extractContent
          O.extractMeta).1,
         (firecrawl_fetch_pages_with_extract env topic urls limit O.extract O.scrape).2 ++
           urls.map NetCall.fetchCall)) ∧
    (items0 ≠ [] →
      acquirePages env O topic urls limit =
        (.ok items0,
         (firecrawl_fetch_pages_with_extract env topic urls limit O.extract O.scrape).2) ∧
      ∀ c ∈ (acquirePages env O topic urls limit).2, ∀ u, c ≠ NetCall.fetchCall u) := by
  have hacq := acquire_of_ok hok
  constructor
  · intro hnil
    rw [hacq, if_pos hnil]
  · intro hne
    have heq : acquirePages env O topic urls limit =
        (.ok items0,
         (firecrawl_fetch_pages_with_extract env topic urls limit O.extract O.scrape).2) := by
      rw [hacq, if_neg hne]
    refine ⟨heq, ?_⟩
    rw [heq]
    intro c hc u
    rcases firecrawl_calls hc with ⟨us, rfl⟩ | ⟨v, rfl⟩ <;> simp

/-- C3, witness: a run where the batch tier yields zero pages, so the
acquisition result is the direct tier's output over the full URL set
and the call log ends with one fetch call per URL. -/
theorem C3_witness :
    acquirePages sEnv c3O [] [['u']] 10 =
      (.ok (direct_fetch_pages_with_trafilatura [['u']] 10 c3O.fetchUrl c3O.extractContent
        c3O.extractMeta).1,
       (firecrawl_fetch_pages_with_extract sEnv [] [['u']] 10 c3O.extract c3O.scrape).2 ++
         [['u']].map NetCall.fetchCall) :=
  (C3_tier_fallback sEnv c3O [] [['u']] 10 [] (by decide)).1 rfl

/-- C4: when the topic is non-empty, the batch tier yields zero pages
and the direct tier yields zero pages, the `/research` route ends in
the user-visible no-content flash message returning to the input form,
and the completion call is never among the network calls made. -/
theorem C4_total_failure (env : Env) (f : FormData) (O : Oracles)
    (htopic : pyStripWs f.topic ≠ [])
    (hfc : (firecrawl_fetch_pages_with_extract env (pyStripWs f.topic) (effective_urls f)
      f.per_page_limit O.extract O.scrape).1 = .ok [])
    (hdirect : (direct_fetch_pages_with_trafilatura (effective_urls f) f.per_page_limit
      O.fetchUrl O.extractContent O.extractMeta).1 = []) :
    (research env f O).1 = .flashRedirect noContentMsg ∧
      ∀ c ∈ (research env f O).2, c ≠ NetCall.completionCall := by
  have hacq : acquirePages env O (pyStripWs f.topic) (effective_urls f) f.per_page_limit =
      (.ok [],
       (firecrawl_fetch_pages_with_extract env (pyStripWs f.topic) (effective_urls f)
         f.per_page_limit O.extract O.scrape).2 ++
         (effective_urls f).map NetCall.fetchCall) := by
    rw [acquire_of_ok hfc, if_pos rfl, hdirect]
  have hres : research env f O =
      (.flashRedirect noContentMsg,
       (firecrawl_fetch_pages_with_extract env (pyStripWs f.topic) (effective_urls f)
         f.per_page_limit O.extract O.scrape).2 ++
         (effective_urls f).map NetCall.fetchCall) := by
    unfold research
    rw [if_neg htopic]
    dsimp only
    rw [hacq]
    dsimp only
    rw [if_pos rfl]
  rw [hres]
  refine ⟨rfl, ?_⟩
  intro c hc
  rcases List.mem_append.mp hc with h1 | h2
  · rcases firecrawl_calls h1 with ⟨us, rfl⟩ | ⟨v, rfl⟩ <;> simp
  · obtain ⟨u, -, rfl⟩ := List.mem_map.mp h2
    simp

/-- C4, witness: a concrete run where every tier fails; the route flashes
the no-content message. -/
theorem C4_witness : (research sEnv c4Form c4O).1 = .flashRedirect noContentMsg :=
  (C4_total_failure sEnv c4Form c4O (by decide) (by decide) (by decide)).1

/-- C5, counterexample: the claim asserts corpus blocks are numbered
1, 2, 3, … consecutively over the included pages only.  With an input
whose first page is excluded (empty url and text) and whose second page
is included, the single emitted block is numbered `[2]`, not `[1]`:
the numbering follows the position in the input list, exclusions
included. -/
theorem C5_counterexample :
    corpus_lines [⟨[], [], []⟩, ⟨['u'], ['t'], ['x']⟩] =
      [['[', '2', ']', ' ', 't', ' ', '—', ' ', 'u', '\n', 'x', '\n']] := by decide

/-- C5, amended: each included page's citation number equals its 1-based
position in the input item list (excluded pages still consume numbers);
consequently, when no page of the input is excluded — as the acquisition
invariant upstream guarantees — the blocks are numbered 1, 2, 3, …
consecutively. -/
theorem C5_amended_numbering :
    (∀ (items : List Page) (i : Nat) (h : i < items.length),
      (items.get ⟨i, h⟩).url ≠ [] → (items.get ⟨i, h⟩).text ≠ [] →
      citeLine (i + 1) (orS (items.get ⟨i, h⟩).title (origin (items.get ⟨i, h⟩).url))
        (items.get ⟨i, h⟩).url (items.get ⟨i, h⟩).text ∈ corpus_lines items) ∧
    (∀ items : List Page, (∀ p ∈ items, p.url ≠ [] ∧ p.text ≠ []) →
      corpus_lines items = (enumerate1 1 items).map fun it =>
        citeLine it.1 (orS it.2.title (origin it.2.url)) it.2.url it.2.text) := by
  constructor
  · intro items i h hu ht
    rw [corpus_lines]
    apply List.mem_filterMap.mpr
    refine ⟨(1 + i, items.get ⟨i, h⟩), enumerate1_mem_get items 1 i h, ?_⟩
    rw [if_pos ⟨hu, ht⟩, Nat.add_comm 1 i]
  · intro items hall
    rw [corpus_lines]
    exact enum_filterMap_all items 1 hall

/-- C5, witness: a single fully-populated page yields the block numbered
by its input position 1. -/
theorem C5_witness :
    citeLine 1 (orS ['t'] (origin ['u'])) ['u'] ['x'] ∈
      corpus_lines [⟨['u'], ['t'], ['x']⟩] :=
  C5_amended_numbering.1 [⟨['u'], ['t'], ['x']⟩] 0 (by decide) (by decide) (by decide)

/-- C6, counterexample: the claim asserts the single-page scrape adapter
uses the same content-key priority as the batch adapter, rich
(markdown) first.  On a response dict carrying both keys with different
values, the scrape resolution picks `content` ("plain") while the batch
resolution picks `markdown` ("rich"); end to end, the page produced
through the scrape fallback stores the `content` value. -/
theorem C6_counterexample :
    scrapeText c6Data = "plain".data ∧ rowText c6Data = "rich".data ∧
    (firecrawl_fetch_pages_with_extract sEnv [] [['u']] 100 c6Extract c6Scrape).1 =
      .ok [⟨['u'], ['u'], "plain".data⟩] := by decide

/-- C6, amended: the scrape adapter resolves body text from the first
present of `content`, `markdown`, `text`, `html` — plain content first,
then rich-formatted content, then raw markup last — whereas the batch
adapter resolves from the first present of `markdown`, `content`,
`text`, `html`; the two orders agree only on the last two fallbacks. -/
theorem C6_amended_priority (data : Row) :
    (rget data keyContent ≠ [] → scrapeText data = rget data keyContent) ∧
    (rget data keyContent = [] → rget data keyMarkdown ≠ [] →
      scrapeText data = rget data keyMarkdown) ∧
    (rget data keyContent = [] → rget data keyMarkdown = [] → rget data keyText ≠ [] →
      scrapeText data = rget data keyText) ∧
    (rget data keyContent = [] → rget data keyMarkdown = [] → rget data keyText = [] →
      scrapeText data = rget data keyHtml) ∧
    (rget data keyMarkdown ≠ [] → rowText data = rget data keyMarkdown) ∧
    (rget data keyMarkdown = [] → rget data keyContent ≠ [] →
      rowText data = rget data keyContent) := by
  refine ⟨?_, ?_, ?_, ?_, ?_, ?_⟩ <;> intros <;> simp_all [scrapeText, rowText, orS]

/-- C6, witness: the amended priority evaluated on a dict holding only a
`content` field. -/
theorem C6_witness :
    scrapeText [(keyContent, ['p'])] = rget [(keyContent, ['p'])] keyContent :=
  (C6_amended_priority [(keyContent, ['p'])]).1 (by decide)

/-- C7, counterexample: the claim asserts the final page list preserves
the input URL order for every adapter-response combination.  With input
order `a`, `b` and an extract response listing full rows for `b` then
`a`, the batch adapter emits the pages in response order `b`, `a`, which
is not order-preserving with respect to the input. -/
theorem C7_counterexample :
    (firecrawl_fetch_pages_with_extract sEnv [] [['a'], ['b']] 100 c7Extract c7Scrape).1 =
      .ok [⟨['b'], ['b'], ['t']⟩, ⟨['a'], ['a'], ['t']⟩] ∧
    ¬ ([['b'], ['a']] : List Str).Sublist [['a'], ['b']] := by decide

/-- C7, amended: the direct fetch-and-extract adapter preserves input
URL order — the url sequence of its output is a subsequence of the
input URL list; the batch adapter instead emits pages in the order of
the rows of the service response, which need not match input order. -/
theorem C7_amended_direct_order (urls : List Str) (limit : Nat) (fetch : Str → Str)
    (extractT : Str → Str → Str) (meta : Str → Option Str) :
    ((direct_fetch_pages_with_trafilatura urls limit fetch extractT meta).1.map
      Page.url).Sublist urls :=
  direct_map_url_sublist urls limit fetch extractT meta

/-- C8, counterexample: normalization is not idempotent.  On the input
`"␣x` (double quote, space, x) the first pass strips the quote and
exposes the space, which only a second pass removes. -/
theorem C8_counterexample :
    normalize_url (normalize_url [Char.ofNat 34, ' ', 'x']) ≠
      normalize_url [Char.ofNat 34, ' ', 'x'] := by decide

/-- C8, amended: normalization is idempotent on every input whose
normalized form carries no leading or trailing whitespace; in general
the quote-stripping pass can expose whitespace that was shielded by
quote characters, and then a second application strips further. -/
theorem C8_amended_idempotent (s : Str)
    (h : pyStripWs (normalize_url s) = normalize_url s) :
    normalize_url (normalize_url s) = normalize_url s := by
  have hq : pyStrip isQuoteChar (normalize_url s) = normalize_url s := by
    apply pyStrip_eq_self
    · intro c hc
      rw [normalize_url, replaceDashes, List.head?_map] at hc
      cases hh : (pyStrip isQuoteChar (pyStrip pyIsSpace s)).head? with
      | none => rw [hh] at hc; simp at hc
      | some d =>
        rw [hh] at hc
        simp at hc
        rw [← hc]
        exact dashFix_not_quote (pyStrip_head?_not hh)
    · intro c hc
      rw [normalize_url, replaceDashes, List.getLast?_map] at hc
      cases hh : (pyStrip isQuoteChar (pyStrip pyIsSpace s)).getLast? with
      | none => rw [hh] at hc; simp at hc
      | some d =>
        rw [hh] at hc
        simp at hc
        rw [← hc]
        exact dashFix_not_quote (pyStrip_getLast?_not hh)
  calc normalize_url (normalize_url s)
      = replaceDashes (pyStrip isQuoteChar (pyStripWs (normalize_url s))) := rfl
    _ = replaceDashes (pyStrip isQuoteChar (normalize_url s)) := by rw [h]
    _ = replaceDashes (normalize_url s) := by rw [hq]
    _ = normalize_url s := replaceDashes_idem (pyStrip isQuoteChar (pyStrip pyIsSpace s))

/-- C8, witness: a normalized plain URL re-normalizes to itself. -/
theorem C8_witness :
    normalize_url (normalize_url "https://x".data) = normalize_url "https://x".data :=
  C8_amended_idempotent "https://x".data (by decide)

/-- C9: a missing Firecrawl key makes the extraction adapter abort with
its fatal configuration error and an empty network-call log (no call
issued), and a missing OpenAI key makes the synthesizer abort with its
fatal configuration error and an empty call log: in both cases no
partial output. -/
theorem C9_missing_keys (env : Env) (topic : Str) (urls : List Str) (limit : Nat)
    (E : List Str → EResp) (S : Str → Except Str SResp)
    (items : List Page) (completion : Str → Str) :
    (truthy env.fcKey = false →
      firecrawl_fetch_pages_with_extract env topic urls limit E S =
        (.error fcMissingMsg, [])) ∧
    (truthy env.openaiKey = false →
      enhance_with_openai env topic items completion = (.error openaiMissingMsg, [])) := by
  constructor
  · intro h
    rw [firecrawl_fetch_pages_with_extract, if_pos h]
  · intro h
    rw [enhance_with_openai, if_pos h]

/-- C9, witness: with no keys set, the extraction adapter fails fast
with no network call. -/
theorem C9_witness :
    firecrawl_fetch_pages_with_extract ⟨none, none⟩ [] [] 0 (fun _ => .other)
      (fun _ => .error []) = (.error fcMissingMsg, []) :=
  (C9_missing_keys ⟨none, none⟩ [] [] 0 (fun _ => .other) (fun _ => .error [])
    [] (fun _ => [])).1 rfl

/-- C10: the `normalize_url` strip set consists of the ASCII double
quote, the ASCII apostrophe and the four smart quotes; after whitespace
stripping, a single strip pass removes a (possibly mixed) run of these
six characters from each end — the stripped remainder neither starts
nor ends with one of them — and normalization is exactly the dash
replacement of that remainder. -/
theorem C10_quote_stripping (s : Str) :
    (isQuoteChar (Char.ofNat 34) = true ∧ isQuoteChar (Char.ofNat 39) = true ∧
      isQuoteChar '‘' = true ∧ isQuoteChar '’' = true ∧
      isQuoteChar '“' = true ∧ isQuoteChar '”' = true) ∧
    (∃ a b, pyStripWs s = a ++ pyStrip isQuoteChar (pyStripWs s) ++ b ∧
      (∀ c ∈ a, isQuoteChar c = true) ∧ (∀ c ∈ b, isQuoteChar c = true)) ∧
    (∀ c, (pyStrip isQuoteChar (pyStripWs s)).head? = some c → isQuoteChar c = false) ∧
    (∀ c, (pyStrip isQuoteChar (pyStripWs s)).getLast? = some c → isQuoteChar c = false) ∧
    normalize_url s = replaceDashes (pyStrip isQuoteChar (pyStripWs s)) :=
  ⟨by decide, pyStrip_decomp isQuoteChar (pyStripWs s),
    fun _ h => pyStrip_head?_not h, fun _ h => pyStrip_getLast?_not h, rfl⟩

end FlaskResearch
